import Mathlib

/-!
Verification of the view-carve projection pipeline (`src/view_carve/mesh_project.py`).

The embedding models the geometric core of the pipeline over exact rationals:
`mathutils` 4-vectors and 4x4 matrices become `Vec4`/`Mat4` over `ℚ`,
the projection helpers `_vp_plane_project_pt` / `_vp_plane_project_pt_inv`
become `vp_plane_project_pt` / `vp_plane_project_pt_inv`, and the stencil-mesh
extrusion core of `_stencil_shape_to_stencil_mesh` becomes
`stencil_shape_mesh_data`.  Fallible Python code (raising `ValueError`) is
modelled with `Except String`.
-/

namespace ViewCarve

/-- A 4-component vector over `ℚ`, modelling a `mathutils.Vector` of length 4. -/
structure Vec4 where
  x : ℚ
  y : ℚ
  z : ℚ
  w : ℚ
deriving DecidableEq, Repr

/-- A 4x4 matrix over `ℚ` given by its rows, modelling a `mathutils.Matrix`. -/
structure Mat4 where
  r0 : Vec4
  r1 : Vec4
  r2 : Vec4
  r3 : Vec4
deriving DecidableEq, Repr

/-- Dot product of two 4-vectors. -/
def dot4 (a b : Vec4) : ℚ :=
  a.x * b.x + a.y * b.y + a.z * b.z + a.w * b.w

/-- Matrix-vector product (`matrix @ vector` in mathutils). -/
def Mat4.apply (m : Mat4) (v : Vec4) : Vec4 :=
  ⟨dot4 m.r0 v, dot4 m.r1 v, dot4 m.r2 v, dot4 m.r3 v⟩

/-- The identity matrix. -/
def Mat4.one : Mat4 :=
  ⟨⟨1, 0, 0, 0⟩, ⟨0, 1, 0, 0⟩, ⟨0, 0, 1, 0⟩, ⟨0, 0, 0, 1⟩⟩

/-- A 2D point in the viewport camera plane. -/
abbrev Pt2 := ℚ × ℚ

/-- A 3D point. -/
abbrev Pt3 := ℚ × ℚ × ℚ

/-- A triangle as a triple of vertex indices, as used by the `triangle` library. -/
abbrev Tri := ℕ × ℕ × ℕ

/-- The camera-space image of a 3D point: the source embeds `pt` as the
homogeneous vector `(pt[0], pt[1], pt[2], 1)` and applies `to_cam_matrix`
(line 406 of `mesh_project.py`). -/
def camPoint (toCam : Mat4) (pt : Pt3) : Vec4 :=
  toCam.apply ⟨pt.1, pt.2.1, pt.2.2, 1⟩

/-- `_vp_plane_project_pt` (lines 398-412): projects a 3D point into the
viewport camera's 2D plane.  Orthographic mode returns the camera-space x and
y; perspective mode raises `ValueError` when the camera-space depth is `≥ 0`
and otherwise divides x and y by the negated depth. -/
def vp_plane_project_pt (toCam : Mat4) (isOrthographic : Bool) (pt : Pt3) :
    Except String Pt2 :=
  let q := camPoint toCam pt
  if isOrthographic then
    .ok (q.x, q.y)
  else if 0 ≤ q.z then
    .error "Carver object is behind the viewport camera"
  else
    .ok (q.x / -q.z, q.y / -q.z)

/-- `_vp_plane_project_pt_inv` (lines 415-437): lifts a 2D camera-plane point
back into 3D space.  Orthographic: camera-space `(x, y, ±far_dist)`;
perspective close-to-camera: the camera-space origin; perspective far:
`(x * far_dist, y * far_dist, -far_dist)`.  The camera-space point is
transformed by `from_cam_matrix` and the first three output components are
returned. -/
def vp_plane_project_pt_inv (fromCam : Mat4) (isOrthographic : Bool)
    (farDist : ℚ) (pt : Pt2) (closeToCam : Bool) : Pt3 :=
  let viewSpaceOutput : Vec4 :=
    if isOrthographic then
      ⟨pt.1, pt.2, if closeToCam then farDist else -farDist, 1⟩
    else if closeToCam then
      ⟨0, 0, 0, 1⟩
    else
      ⟨pt.1 * farDist, pt.2 * farDist, -farDist, 1⟩
  let outputVec := fromCam.apply viewSpaceOutput
  (outputVec.x, outputVec.y, outputVec.z)

/-- Projection of one path of 3D points, modelling the inner list
comprehension at line 233: the first raised `ValueError` propagates. -/
def project_path (toCam : Mat4) (isOrthographic : Bool) :
    List Pt3 → Except String (List Pt2)
  | [] => .ok []
  | p :: ps =>
    match vp_plane_project_pt toCam isOrthographic p with
    | .error e => .error e
    | .ok q =>
      match project_path toCam isOrthographic ps with
      | .error e => .error e
      | .ok qs => .ok (q :: qs)

/-- Projection of a batch of paths, modelling the outer list comprehension at
line 233 of `_paths_to_stencil_shape`. -/
def project_paths (toCam : Mat4) (isOrthographic : Bool) :
    List (List Pt3) → Except String (List (List Pt2))
  | [] => .ok []
  | p :: ps =>
    match project_path toCam isOrthographic p with
    | .error e => .error e
    | .ok q =>
      match project_paths toCam isOrthographic ps with
      | .error e => .error e
      | .ok qs => .ok (q :: qs)

theorem project_path_error (toCam : Mat4) (path : List Pt3) (pt : Pt3)
    (hmem : pt ∈ path) (hz : 0 ≤ (camPoint toCam pt).z) :
    ∃ e, project_path toCam false path = .error e := by
  induction path with
  | nil => cases hmem
  | cons p ps ih =>
    rcases List.mem_cons.mp hmem with h | h
    · subst h
      refine ⟨"Carver object is behind the viewport camera", ?_⟩
      simp [project_path, vp_plane_project_pt, hz]
    · rcases ih h with ⟨e, he⟩
      simp only [project_path, vp_plane_project_pt]
      by_cases h0 : 0 ≤ (camPoint toCam p).z
      · exact ⟨"Carver object is behind the viewport camera", by simp [h0]⟩
      · exact ⟨e, by simp [h0, he]⟩

theorem project_paths_error (toCam : Mat4) (paths : List (List Pt3))
    (path : List Pt3) (pt : Pt3) (hpath : path ∈ paths) (hmem : pt ∈ path)
    (hz : 0 ≤ (camPoint toCam pt).z) :
    ∃ e, project_paths toCam false paths = .error e := by
  induction paths with
  | nil => cases hpath
  | cons p ps ih =>
    rcases List.mem_cons.mp hpath with h | h
    · subst h
      rcases project_path_error toCam path pt hmem hz with ⟨e, he⟩
      exact ⟨e, by simp [project_paths, he]⟩
    · rcases ih h with ⟨e, he⟩
      simp only [project_paths]
      cases hq : project_path toCam false p with
      | error e0 => exact ⟨e0, by simp⟩
      | ok q => exact ⟨e, by simp [he]⟩

/-- **C4**: under perspective projection every point whose camera-space depth
is `≥ 0` fails with the behind-camera `ValueError`; every point with strictly
negative camera-space depth projects to its camera-space x and y divided by
the negated depth; such an error propagates out of a whole batch projection;
and orthographic projection never raises this error. -/
theorem perspective_behind_camera_spec :
    (∀ (toCam : Mat4) (pt : Pt3), 0 ≤ (camPoint toCam pt).z →
      vp_plane_project_pt toCam false pt =
        .error "Carver object is behind the viewport camera") ∧
    (∀ (toCam : Mat4) (pt : Pt3), (camPoint toCam pt).z < 0 →
      vp_plane_project_pt toCam false pt =
        .ok ((camPoint toCam pt).x / -(camPoint toCam pt).z,
             (camPoint toCam pt).y / -(camPoint toCam pt).z)) ∧
    (∀ (toCam : Mat4) (paths : List (List Pt3)) (path : List Pt3) (pt : Pt3),
      path ∈ paths → pt ∈ path → 0 ≤ (camPoint toCam pt).z →
      ∃ e, project_paths toCam false paths = .error e) ∧
    (∀ (toCam : Mat4) (pt : Pt3),
      vp_plane_project_pt toCam true pt =
        .ok ((camPoint toCam pt).x, (camPoint toCam pt).y)) := by
  refine ⟨?_, ?_, ?_, ?_⟩
  · intro toCam pt hz
    simp [vp_plane_project_pt, hz]
  · intro toCam pt hz
    simp [vp_plane_project_pt, not_le.mpr hz, hz.not_le]
  · intro toCam paths path pt hpath hmem hz
    exact project_paths_error toCam paths path pt hpath hmem hz
  · intro toCam pt
    simp [vp_plane_project_pt]

/-- Witness for `perspective_behind_camera_spec` at concrete inputs: the
identity camera matrix, a point at depth 0 (fails), a point at depth `-2`
(projects to halved coordinates), a batch containing the failing point, and
an orthographic projection of a point behind the camera (succeeds). -/
theorem perspective_behind_camera_spec_witness :
    vp_plane_project_pt Mat4.one false (3, 5, 0) =
      .error "Carver object is behind the viewport camera" ∧
    vp_plane_project_pt Mat4.one false (3, 5, -2) = .ok (3 / 2, 5 / 2) ∧
    (∃ e, project_paths Mat4.one false [[(1, 1, -1)], [(3, 5, 0)]] = .error e) ∧
    vp_plane_project_pt Mat4.one true (3, 5, 7) = .ok (3, 5) := by
  refine ⟨?_, ?_, ?_, ?_⟩
  · exact perspective_behind_camera_spec.1 Mat4.one (3, 5, 0)
      (by norm_num [camPoint, Mat4.apply, Mat4.one, dot4])
  · have h := perspective_behind_camera_spec.2.1 Mat4.one (3, 5, -2)
      (by norm_num [camPoint, Mat4.apply, Mat4.one, dot4])
    rw [h]
    norm_num [camPoint, Mat4.apply, Mat4.one, dot4]
  · exact perspective_behind_camera_spec.2.2.1 Mat4.one
      [[(1, 1, -1)], [(3, 5, 0)]] [(3, 5, 0)] (3, 5, 0) (by simp) (by simp)
      (by norm_num [camPoint, Mat4.apply, Mat4.one, dot4])
  · have h := perspective_behind_camera_spec.2.2.2 Mat4.one (3, 5, 7)
    rw [h]
    norm_num [camPoint, Mat4.apply, Mat4.one, dot4]

/-- **C8**: in orthographic mode, lifting a 2D point with the inverse view
matrix at either depth (`close_to_cam` true or false, that is camera-space
depth `+far_dist` or `-far_dist`) and projecting the result back with the
view matrix recovers the original 2D point.  `hinv` states that `fromCam` is
the inverse of the view matrix `view`; `haff` states that the view matrix's
inverse is affine (bottom row `0 0 0 1`), which holds for every view matrix. -/
theorem ortho_roundtrip (view fromCam : Mat4)
    (hinv : ∀ v, view.apply (fromCam.apply v) = v)
    (haff : fromCam.r3 = ⟨0, 0, 0, 1⟩) (p : Pt2) (farDist : ℚ)
    (closeToCam : Bool) :
    vp_plane_project_pt view true
      (vp_plane_project_pt_inv fromCam true farDist p closeToCam) = .ok p := by
  have hw : ∀ v : Vec4, v.w = 1 → (fromCam.apply v).w = 1 := by
    intro v hv
    simp [Mat4.apply, dot4, haff, hv]
  simp only [vp_plane_project_pt, vp_plane_project_pt_inv, camPoint,
    if_pos rfl, if_true]
  set v : Vec4 := ⟨p.1, p.2, if closeToCam then farDist else -farDist, 1⟩ with hv
  have h1 : (fromCam.apply v).w = 1 := hw v rfl
  have h2 : (⟨(fromCam.apply v).x, (fromCam.apply v).y, (fromCam.apply v).z, 1⟩ : Vec4)
      = fromCam.apply v := by
    cases hq : fromCam.apply v
    simp only [hq] at h1
    simp [h1]
  rw [h2, hinv v]

/-- Witness for `ortho_roundtrip`: the identity view matrix and its (trivial)
inverse, the point `(3, 5)`, `far_dist = 7`, near side. -/
theorem ortho_roundtrip_witness :
    vp_plane_project_pt Mat4.one true
      (vp_plane_project_pt_inv Mat4.one true 7 (3, 5) true) = .ok (3, 5) :=
  ortho_roundtrip Mat4.one Mat4.one
    (fun v => by cases v; simp [Mat4.apply, Mat4.one, dot4]) rfl (3, 5) 7 true

/-! ## The stencil-mesh extrusion core (`_stencil_shape_to_stencil_mesh`, lines 270-307)

The geometry computed before the Blender mesh object is created: the 3D
vertex list, the edge list and the face list built from the triangulated 2D
shape (`vertices_2d`, `triangles_2d`).  The face and edge index lists depend
only on the triangle list and on `num_vertices_2d`, so they are modelled as
separate `ℕ`-valued functions. -/

/-- The plain geometry data handed to `mesh.from_pydata` at line 314. -/
structure StencilMeshData where
  vertices : List Pt3
  edges : List (ℕ × ℕ)
  faces : List (List ℕ)
deriving DecidableEq, Repr

/-- The unordered vertex-index pair `frozenset((a, b))` of lines 292-294,
represented with its smaller component first (the iteration order of a
two-element Python `frozenset` is unspecified; none of the verified
properties depend on the order within the pair). -/
def orderPair (a b : ℕ) : ℕ × ℕ :=
  if a ≤ b then (a, b) else (b, a)

/-- The three unordered edges of one triangle (lines 292-294). -/
def triEdges (t : Tri) : List (ℕ × ℕ) :=
  [orderPair t.1 t.2.1, orderPair t.2.1 t.2.2, orderPair t.2.2 t.1]

/-- All triangle-edge occurrences of a triangle list, in the order the loop
at lines 291-295 feeds them to the `Counter`. -/
def triEdgeList (tris : List Tri) : List (ℕ × ℕ) :=
  tris.flatMap triEdges

/-- Insertion into an insertion-ordered set: append if not yet present.
Models both `ordered_set.OrderedSet.add` and the first-insertion key order of
`collections.Counter`. -/
def orderedInsert {α : Type} [DecidableEq α] (l : List α) (a : α) : List α :=
  if a ∈ l then l else l ++ [a]

/-- The distinct elements of a list in first-occurrence order. -/
def orderedSet {α : Type} [DecidableEq α] (xs : List α) : List α :=
  xs.foldl orderedInsert []

/-- `edge_counts[e]`: how many triangle-edge occurrences reference the
unordered pair `e` (the `Counter` of lines 290-295). -/
def edgeCount (tris : List Tri) (e : ℕ × ℕ) : ℕ :=
  (triEdgeList tris).count e

/-- The number of triangles in the list that have the unordered pair `e` as
one of their edges.  For triangles with three pairwise-distinct vertex
indices this agrees with `edgeCount`. -/
def numTrianglesReferencing (tris : List Tri) (e : ℕ × ℕ) : ℕ :=
  (tris.filter (fun t => e ∈ triEdges t)).length

/-- A cap face: one triangle of the 2D triangulation used directly as a face
(line 283). -/
def capFace (t : Tri) : List ℕ :=
  [t.1, t.2.1, t.2.2]

/-- A cap face shifted into the second vertex block (lines 285-286). -/
def capFaceShift (n : ℕ) (t : Tri) : List ℕ :=
  [t.1 + n, t.2.1 + n, t.2.2 + n]

/-- The orthographic bridge quad for a boundary edge (line 305). -/
def bridgeQuad (n : ℕ) (e : ℕ × ℕ) : List ℕ :=
  [e.1, e.2, e.2 + n, e.1 + n]

/-- The perspective bridge triangle to the apex vertex at index `n`
(line 307). -/
def apexTri (n : ℕ) (e : ℕ × ℕ) : List ℕ :=
  [e.1, e.2, n]

/-- The face list built at lines 283-307: the triangulated caps followed by
one bridge face for every distinct edge with exactly one attached triangle,
in `Counter` key order.  (The Python loop appends the bridge faces to the
already-built cap list in that same order.) -/
def stencil_mesh_faces (isOrthographic : Bool) (n : ℕ) (tris : List Tri) :
    List (List ℕ) :=
  (tris.map capFace ++ if isOrthographic then tris.map (capFaceShift n) else [])
    ++ ((orderedSet (triEdgeList tris)).filter
          (fun e => edgeCount tris e = 1)).map
        (if isOrthographic then bridgeQuad n else apexTri n)

/-- The edge list built at lines 298-303: every distinct 2D edge, and in
orthographic mode also its shifted copy in the second vertex block. -/
def stencil_mesh_edges (isOrthographic : Bool) (n : ℕ) (tris : List Tri) :
    List (ℕ × ℕ) :=
  (orderedSet (triEdgeList tris)).flatMap
    (fun e => if isOrthographic then [e, (e.1 + n, e.2 + n)] else [e])

/-- The 3D vertex list built at lines 274-281: every 2D vertex lifted with
`close_to_cam = False`; then, orthographic, every 2D vertex lifted again with
`close_to_cam = True`, or, perspective, the single lifted origin. -/
def stencil_mesh_vertices (fromCam : Mat4) (isOrthographic : Bool)
    (farDist : ℚ) (vertices2d : List Pt2) : List Pt3 :=
  vertices2d.map
      (fun p => vp_plane_project_pt_inv fromCam isOrthographic farDist p false)
    ++ (if isOrthographic then
          vertices2d.map
            (fun p => vp_plane_project_pt_inv fromCam isOrthographic farDist p true)
        else
          [vp_plane_project_pt_inv fromCam isOrthographic farDist (0, 0) true])

/-- The extrusion core of `_stencil_shape_to_stencil_mesh` (lines 270-307):
the geometry passed to `mesh.from_pydata`. -/
def stencil_shape_mesh_data (fromCam : Mat4) (isOrthographic : Bool)
    (farDist : ℚ) (vertices2d : List Pt2) (tris : List Tri) :
    StencilMeshData :=
  ⟨stencil_mesh_vertices fromCam isOrthographic farDist vertices2d,
   stencil_mesh_edges isOrthographic vertices2d.length tris,
   stencil_mesh_faces isOrthographic vertices2d.length tris⟩

theorem mem_orderedInsert {α : Type} [DecidableEq α] (l : List α) (a b : α) :
    b ∈ orderedInsert l a ↔ b ∈ l ∨ b = a := by
  unfold orderedInsert
  by_cases h : a ∈ l
  · simp only [if_pos h]
    constructor
    · exact fun hb => Or.inl hb
    · rintro (hb | rfl)
      · exact hb
      · exact h
  · simp [if_neg h]

theorem orderedInsert_nodup {α : Type} [DecidableEq α] (l : List α) (a : α)
    (h : l.Nodup) : (orderedInsert l a).Nodup := by
  unfold orderedInsert
  by_cases ha : a ∈ l
  · simpa [ha]
  · rw [if_neg ha]
    simpa [List.nodup_append] using ⟨h, ha⟩

theorem foldl_orderedInsert_mem {α : Type} [DecidableEq α] (xs : List α)
    (init : List α) (b : α) :
    b ∈ xs.foldl orderedInsert init ↔ b ∈ init ∨ b ∈ xs := by
  induction xs generalizing init with
  | nil => simp
  | cons x xs ih =>
    simp only [List.foldl_cons, ih, mem_orderedInsert, List.mem_cons]
    tauto

theorem foldl_orderedInsert_nodup {α : Type} [DecidableEq α] (xs : List α)
    (init : List α) (h : init.Nodup) :
    (xs.foldl orderedInsert init).Nodup := by
  induction xs generalizing init with
  | nil => simpa
  | cons x xs ih => exact ih _ (orderedInsert_nodup _ _ h)

theorem mem_orderedSet {α : Type} [DecidableEq α] (xs : List α) (b : α) :
    b ∈ orderedSet xs ↔ b ∈ xs := by
  unfold orderedSet
  rw [foldl_orderedInsert_mem]
  simp

theorem orderedSet_nodup {α : Type} [DecidableEq α] (xs : List α) :
    (orderedSet xs).Nodup :=
  foldl_orderedInsert_nodup xs [] List.nodup_nil

theorem orderPair_eq_iff (a b c d : ℕ) :
    orderPair a b = orderPair c d ↔ (a = c ∧ b = d) ∨ (a = d ∧ b = c) := by
  unfold orderPair
  split_ifs <;> simp [Prod.ext_iff] <;> omega

theorem bridgeQuad_injective (n : ℕ) : Function.Injective (bridgeQuad n) := by
  intro e1 e2 h
  simp only [bridgeQuad, List.cons.injEq] at h
  exact Prod.ext h.1 h.2.1

theorem apexTri_injective (n : ℕ) : Function.Injective (apexTri n) := by
  intro e1 e2 h
  simp only [apexTri, List.cons.injEq] at h
  exact Prod.ext h.1 h.2.1

/-- Every cap face (plain or shifted) is a 3-element list. -/
theorem capFace_length (t : Tri) : (capFace t).length = 3 := rfl

theorem capFaceShift_length (n : ℕ) (t : Tri) : (capFaceShift n t).length = 3 :=
  rfl

/-- An edge with a positive occurrence count occurs in the `Counter`'s key
list. -/
theorem mem_orderedSet_of_edgeCount_pos (tris : List Tri) (e : ℕ × ℕ)
    (h : 0 < edgeCount tris e) : e ∈ orderedSet (triEdgeList tris) := by
  rw [mem_orderedSet]
  exact List.count_pos_iff.mp h

theorem count_eq_one_of_nodup_mem {α : Type} [BEq α] [LawfulBEq α]
    (l : List α) (a : α) (hn : l.Nodup) (hm : a ∈ l) : l.count a = 1 := by
  induction l with
  | nil => cases hm
  | cons x xs ih =>
    rw [List.count_cons]
    rcases List.mem_cons.mp hm with rfl | hm2
    · rw [List.count_eq_zero.mpr (List.nodup_cons.mp hn).1]
      simp
    · have hax : a ≠ x := by
        rintro rfl
        exact (List.nodup_cons.mp hn).1 hm2
      rw [ih (List.nodup_cons.mp hn).2 hm2]
      simp [Ne.symm hax]

theorem count_map_injective {α β : Type} [BEq α] [LawfulBEq α] [BEq β]
    [LawfulBEq β] (l : List α) (f : α → β) (hf : Function.Injective f)
    (x : α) : (l.map f).count (f x) = l.count x := by
  induction l with
  | nil => rfl
  | cons y ys ih =>
    rw [List.map_cons, List.count_cons, List.count_cons, ih]
    by_cases h : x = y
    · subst h
      simp
    · have h2 : f x ≠ f y := fun hc => h (hf hc)
      simp [Ne.symm h, Ne.symm h2]

/-- The orthographic face list, with the mode conditionals resolved. -/
theorem stencil_mesh_faces_true_eq (n : ℕ) (tris : List Tri) :
    stencil_mesh_faces true n tris =
      (tris.map capFace ++ tris.map (capFaceShift n)) ++
        ((orderedSet (triEdgeList tris)).filter
            (fun e => edgeCount tris e = 1)).map (bridgeQuad n) := by
  simp [stencil_mesh_faces]

/-- The perspective face list, with the mode conditionals resolved. -/
theorem stencil_mesh_faces_false_eq (n : ℕ) (tris : List Tri) :
    stencil_mesh_faces false n tris =
      tris.map capFace ++
        ((orderedSet (triEdgeList tris)).filter
            (fun e => edgeCount tris e = 1)).map (apexTri n) := by
  simp [stencil_mesh_faces]

/-- Membership characterization of the built face list: a face is a cap, a
shifted cap (orthographic only), or the bridge face of a distinct boundary
(count 1) edge. -/
theorem mem_stencil_mesh_faces (isOrtho : Bool) (n : ℕ) (tris : List Tri)
    (f : List ℕ) :
    f ∈ stencil_mesh_faces isOrtho n tris ↔
      (∃ t ∈ tris, f = capFace t) ∨
      (isOrtho = true ∧ ∃ t ∈ tris, f = capFaceShift n t) ∨
      (∃ e ∈ orderedSet (triEdgeList tris), edgeCount tris e = 1 ∧
        f = (if isOrtho then bridgeQuad n else apexTri n) e) := by
  cases isOrtho with
  | true =>
    rw [stencil_mesh_faces_true_eq]
    simp only [List.mem_append, List.mem_map, List.mem_filter, if_pos rfl]
    constructor
    · rintro ((⟨t, ht, rfl⟩ | ⟨t, ht, rfl⟩) | ⟨e, ⟨he, hc⟩, rfl⟩)
      · exact Or.inl ⟨t, ht, rfl⟩
      · exact Or.inr (Or.inl ⟨by trivial, t, ht, rfl⟩)
      · exact Or.inr (Or.inr ⟨e, he, by simpa using hc, rfl⟩)
    · rintro (⟨t, ht, rfl⟩ | ⟨_, t, ht, rfl⟩ | ⟨e, he, hc, rfl⟩)
      · exact Or.inl (Or.inl ⟨t, ht, rfl⟩)
      · exact Or.inl (Or.inr ⟨t, ht, rfl⟩)
      · exact Or.inr ⟨e, ⟨he, by simpa using hc⟩, rfl⟩
  | false =>
    rw [stencil_mesh_faces_false_eq]
    simp only [List.mem_append, List.mem_map, List.mem_filter]
    constructor
    · rintro (⟨t, ht, rfl⟩ | ⟨e, ⟨he, hc⟩, rfl⟩)
      · exact Or.inl ⟨t, ht, rfl⟩
      · exact Or.inr (Or.inr ⟨e, he, by simpa using hc, rfl⟩)
    · rintro (⟨t, ht, rfl⟩ | ⟨h, _⟩ | ⟨e, he, hc, rfl⟩)
      · exact Or.inl ⟨t, ht, rfl⟩
      · cases h
      · exact Or.inr ⟨e, ⟨he, by simpa using hc⟩, rfl⟩

/-- A boundary edge (count 1) receives exactly one orthographic bridge
quad. -/
theorem count_bridgeQuad_eq_one (n : ℕ) (tris : List Tri) (e : ℕ × ℕ)
    (h : edgeCount tris e = 1) :
    (stencil_mesh_faces true n tris).count (bridgeQuad n e) = 1 := by
  rw [stencil_mesh_faces_true_eq, List.count_append, List.count_append]
  have hcap : (tris.map capFace).count (bridgeQuad n e) = 0 := by
    rw [List.count_eq_zero]
    intro hmem
    rcases List.mem_map.mp hmem with ⟨t, _, ht⟩
    have := congrArg List.length ht
    simp [capFace, bridgeQuad] at this
  have hcapS : (tris.map (capFaceShift n)).count (bridgeQuad n e) = 0 := by
    rw [List.count_eq_zero]
    intro hmem
    rcases List.mem_map.mp hmem with ⟨t, _, ht⟩
    have := congrArg List.length ht
    simp [capFaceShift, bridgeQuad] at this
  have hbr :
      (((orderedSet (triEdgeList tris)).filter
          (fun e' => edgeCount tris e' = 1)).map (bridgeQuad n)).count
        (bridgeQuad n e) = 1 := by
    rw [count_map_injective _ _ (bridgeQuad_injective n)]
    refine count_eq_one_of_nodup_mem _ _
      (List.Nodup.filter _ (orderedSet_nodup _)) ?_
    rw [List.mem_filter]
    exact ⟨mem_orderedSet_of_edgeCount_pos tris e (by omega), by simp [h]⟩
  rw [hcap, hcapS, hbr]

/-- An interior edge (count at least 2) receives no orthographic bridge
quad. -/
theorem bridgeQuad_not_mem (n : ℕ) (tris : List Tri) (e : ℕ × ℕ)
    (h : 2 ≤ edgeCount tris e) :
    bridgeQuad n e ∉ stencil_mesh_faces true n tris := by
  rw [mem_stencil_mesh_faces]
  rintro (⟨t, _, ht⟩ | ⟨_, t, _, ht⟩ | ⟨e', _, hc, ht⟩)
  · have := congrArg List.length ht
    simp [capFace, bridgeQuad] at this
  · have := congrArg List.length ht
    simp [capFaceShift, bridgeQuad] at this
  · rw [if_pos rfl] at ht
    have he : e' = e := bridgeQuad_injective n ht.symm
    subst he
    omega

/-- A boundary edge (count 1) receives exactly one perspective apex
triangle; triangle vertex indices must be smaller than the apex index `n`. -/
theorem count_apexTri_eq_one (n : ℕ) (tris : List Tri) (e : ℕ × ℕ)
    (hidx : ∀ t ∈ tris, t.1 < n ∧ t.2.1 < n ∧ t.2.2 < n)
    (h : edgeCount tris e = 1) :
    (stencil_mesh_faces false n tris).count (apexTri n e) = 1 := by
  rw [stencil_mesh_faces_false_eq, List.count_append]
  have hcap : (tris.map capFace).count (apexTri n e) = 0 := by
    rw [List.count_eq_zero]
    intro hmem
    rcases List.mem_map.mp hmem with ⟨t, ht, heq⟩
    have h3 : t.2.2 = n := by
      simpa [capFace, apexTri] using congrArg (fun l => l.getLast?) heq
    have := (hidx t ht).2.2
    omega
  have hbr :
      (((orderedSet (triEdgeList tris)).filter
          (fun e' => edgeCount tris e' = 1)).map (apexTri n)).count
        (apexTri n e) = 1 := by
    rw [count_map_injective _ _ (apexTri_injective n)]
    refine count_eq_one_of_nodup_mem _ _
      (List.Nodup.filter _ (orderedSet_nodup _)) ?_
    rw [List.mem_filter]
    exact ⟨mem_orderedSet_of_edgeCount_pos tris e (by omega), by simp [h]⟩
  rw [hcap, hbr]

/-- An interior edge (count at least 2) receives no perspective apex
triangle. -/
theorem apexTri_not_mem (n : ℕ) (tris : List Tri) (e : ℕ × ℕ)
    (hidx : ∀ t ∈ tris, t.1 < n ∧ t.2.1 < n ∧ t.2.2 < n)
    (h : 2 ≤ edgeCount tris e) :
    apexTri n e ∉ stencil_mesh_faces false n tris := by
  rw [mem_stencil_mesh_faces]
  rintro (⟨t, ht, heq⟩ | ⟨hfalse, _⟩ | ⟨e', _, hc, ht⟩)
  · have h3 : t.2.2 = n := by
      simpa [capFace, apexTri] using congrArg (fun l => l.getLast?) heq.symm
    have := (hidx t ht).2.2
    omega
  · cases hfalse
  · rw [if_neg (by simp)] at ht
    have he : e' = e := apexTri_injective n ht.symm
    subst he
    omega

/-- Both caps appear in the orthographic face list, and the plain cap in
every mode. -/
theorem capFace_mem (isOrtho : Bool) (n : ℕ) (tris : List Tri) (t : Tri)
    (ht : t ∈ tris) : capFace t ∈ stencil_mesh_faces isOrtho n tris := by
  rw [mem_stencil_mesh_faces]
  exact Or.inl ⟨t, ht, rfl⟩

theorem capFaceShift_mem (n : ℕ) (tris : List Tri) (t : Tri) (ht : t ∈ tris) :
    capFaceShift n t ∈ stencil_mesh_faces true n tris := by
  rw [mem_stencil_mesh_faces]
  exact Or.inr (Or.inl ⟨rfl, t, ht, rfl⟩)

/-- For a triangle with three pairwise-distinct vertex indices, the three
unordered edges are pairwise distinct. -/
theorem triEdges_nodup (t : Tri) (h1 : t.1 ≠ t.2.1) (h2 : t.2.1 ≠ t.2.2)
    (h3 : t.2.2 ≠ t.1) : (triEdges t).Nodup := by
  have e12 : orderPair t.1 t.2.1 ≠ orderPair t.2.1 t.2.2 := by
    intro h
    rw [orderPair_eq_iff] at h
    omega
  have e13 : orderPair t.1 t.2.1 ≠ orderPair t.2.2 t.1 := by
    intro h
    rw [orderPair_eq_iff] at h
    omega
  have e23 : orderPair t.2.1 t.2.2 ≠ orderPair t.2.2 t.1 := by
    intro h
    rw [orderPair_eq_iff] at h
    omega
  simp [triEdges, e12, e13, e23]

theorem edgeCount_cons (t : Tri) (ts : List Tri) (e : ℕ × ℕ) :
    edgeCount (t :: ts) e = (triEdges t).count e + edgeCount ts e := by
  unfold edgeCount triEdgeList
  rw [List.flatMap_cons, List.count_append]

theorem numTrianglesReferencing_cons (t : Tri) (ts : List Tri) (e : ℕ × ℕ) :
    numTrianglesReferencing (t :: ts) e =
      (if e ∈ triEdges t then 1 else 0) + numTrianglesReferencing ts e := by
  unfold numTrianglesReferencing
  rw [List.filter_cons]
  by_cases hmem : e ∈ triEdges t
  · simp [hmem, Nat.add_comm]
  · simp [hmem]

/-- Under per-triangle nondegeneracy, the occurrence count of the `Counter`
equals the number of triangles having the edge. -/
theorem edgeCount_eq_numTrianglesReferencing (tris : List Tri) (e : ℕ × ℕ)
    (hnd : ∀ t ∈ tris, t.1 ≠ t.2.1 ∧ t.2.1 ≠ t.2.2 ∧ t.2.2 ≠ t.1) :
    edgeCount tris e = numTrianglesReferencing tris e := by
  induction tris with
  | nil => rfl
  | cons t ts ih =>
    have hthead := hnd t (List.mem_cons_self t ts)
    have hts : ∀ t' ∈ ts, t'.1 ≠ t'.2.1 ∧ t'.2.1 ≠ t'.2.2 ∧ t'.2.2 ≠ t'.1 :=
      fun t' ht' => hnd t' (List.mem_cons_of_mem t ht')
    have hone : (triEdges t).count e = if e ∈ triEdges t then 1 else 0 := by
      by_cases hmem : e ∈ triEdges t
      · rw [if_pos hmem]
        exact count_eq_one_of_nodup_mem _ _
          (triEdges_nodup t hthead.1 hthead.2.1 hthead.2.2) hmem
      · rw [if_neg hmem]
        exact List.count_eq_zero.mpr hmem
    rw [edgeCount_cons, numTrianglesReferencing_cons, hone, ih hts]

/-- **C1** (amended): in orthographic mode every 2D vertex is lifted exactly
twice — the first vertex block at camera-space depth `-far_dist` (the far
side) and the second block at `+far_dist` (the near side), each transformed
to world space by the inverse view matrix.  Both caps are emitted with the
triangulation's original winding: the cap on the first block as triangulated
and the cap on the second block as the same index triples shifted by `n`
(there is no winding reversal; consistent orientation is left to the
`normals_make_consistent` pass).  Exactly one bridging quad is emitted per
silhouette (count 1) edge, connecting the edge's two vertex copies, and no
quad is emitted for an edge referenced by two or more triangles; no other
faces exist.  The nondegeneracy hypothesis `hnd` restricts to genuine
triangulations, on which the edge `frozenset`s are two-element sets. -/
theorem ortho_extrusion_structure (fromCam : Mat4) (farDist : ℚ)
    (vs : List Pt2) (tris : List Tri)
    (_hnd : ∀ t ∈ tris, t.1 ≠ t.2.1 ∧ t.2.1 ≠ t.2.2 ∧ t.2.2 ≠ t.1) :
    (stencil_shape_mesh_data fromCam true farDist vs tris).vertices =
      vs.map (fun p => ((fromCam.apply ⟨p.1, p.2, -farDist, 1⟩).x,
                        (fromCam.apply ⟨p.1, p.2, -farDist, 1⟩).y,
                        (fromCam.apply ⟨p.1, p.2, -farDist, 1⟩).z)) ++
      vs.map (fun p => ((fromCam.apply ⟨p.1, p.2, farDist, 1⟩).x,
                        (fromCam.apply ⟨p.1, p.2, farDist, 1⟩).y,
                        (fromCam.apply ⟨p.1, p.2, farDist, 1⟩).z)) ∧
    (∀ t ∈ tris,
      capFace t ∈ (stencil_shape_mesh_data fromCam true farDist vs tris).faces ∧
      capFaceShift vs.length t ∈
        (stencil_shape_mesh_data fromCam true farDist vs tris).faces) ∧
    (∀ e, edgeCount tris e = 1 →
      (stencil_shape_mesh_data fromCam true farDist vs tris).faces.count
        (bridgeQuad vs.length e) = 1) ∧
    (∀ e, 2 ≤ edgeCount tris e →
      bridgeQuad vs.length e ∉
        (stencil_shape_mesh_data fromCam true farDist vs tris).faces) ∧
    (∀ f ∈ (stencil_shape_mesh_data fromCam true farDist vs tris).faces,
      (∃ t ∈ tris, f = capFace t ∨ f = capFaceShift vs.length t) ∨
      (∃ e, edgeCount tris e = 1 ∧ f = bridgeQuad vs.length e)) := by
  refine ⟨rfl, ?_, ?_, ?_, ?_⟩
  · intro t ht
    exact ⟨capFace_mem true vs.length tris t ht,
      capFaceShift_mem vs.length tris t ht⟩
  · intro e he
    exact count_bridgeQuad_eq_one vs.length tris e he
  · intro e he
    exact bridgeQuad_not_mem vs.length tris e he
  · intro f hf
    rcases (mem_stencil_mesh_faces true vs.length tris f).mp hf with
      ⟨t, ht, heq⟩ | ⟨_, t, ht, heq⟩ | ⟨e, _, hc, heq⟩
    · exact Or.inl ⟨t, ht, Or.inl heq⟩
    · exact Or.inl ⟨t, ht, Or.inr heq⟩
    · exact Or.inr ⟨e, hc, by simpa using heq⟩

/-- Witness for `ortho_extrusion_structure`: a single triangle over three 2D
points; the cap faces appear and the boundary edge `(0, 1)` gets exactly one
bridge quad. -/
theorem ortho_extrusion_structure_witness :
    capFace (0, 1, 2) ∈
      (stencil_shape_mesh_data Mat4.one true 1
        [(0, 0), (1, 0), (0, 1)] [(0, 1, 2)]).faces ∧
    (stencil_shape_mesh_data Mat4.one true 1
        [(0, 0), (1, 0), (0, 1)] [(0, 1, 2)]).faces.count
      (bridgeQuad 3 (0, 1)) = 1 := by
  have h := ortho_extrusion_structure Mat4.one 1 [(0, 0), (1, 0), (0, 1)]
    [(0, 1, 2)] (by decide)
  exact ⟨(h.2.1 (0, 1, 2) (by simp)).1, h.2.2.1 (0, 1) (by decide)⟩

/-- **C1 counterexample**: for the unit right triangle under the identity
view matrix with `far_dist = 1`, the first vertex block sits at camera-space
depth `-1` and the second at `+1`, and the face list contains both caps with
the *same* winding `[0,1,2]` / `[3,4,5]`: no cyclic rotation of a
reversed-winding cap (`[2,1,0]`-like on either block) is emitted, so the
claim that the far cap is emitted with reversed winding is false here. -/
theorem ortho_reversed_winding_counterexample :
    (stencil_shape_mesh_data Mat4.one true 1
        [(0, 0), (1, 0), (0, 1)] [(0, 1, 2)]).vertices =
      [(0, 0, -1), (1, 0, -1), (0, 1, -1), (0, 0, 1), (1, 0, 1), (0, 1, 1)] ∧
    (stencil_shape_mesh_data Mat4.one true 1
        [(0, 0), (1, 0), (0, 1)] [(0, 1, 2)]).faces =
      [[0, 1, 2], [3, 4, 5], [0, 1, 4, 3], [1, 2, 5, 4], [0, 2, 5, 3]] ∧
    (∀ f ∈ (stencil_shape_mesh_data Mat4.one true 1
        [(0, 0), (1, 0), (0, 1)] [(0, 1, 2)]).faces,
      f ∉ ([[2, 1, 0], [1, 0, 2], [0, 2, 1],
            [5, 4, 3], [4, 3, 5], [3, 5, 4]] : List (List ℕ))) := by
  refine ⟨?_, by decide, by decide⟩
  norm_num [stencil_shape_mesh_data, stencil_mesh_vertices,
    vp_plane_project_pt_inv, Mat4.apply, Mat4.one, dot4]

/-- **C2** (amended): in perspective mode each 2D vertex is lifted exactly
once, at the *far* cross-section — the camera-space point
`(x * far_dist, y * far_dist, -far_dist)`, not at depth 0 — plus one apex
vertex at the camera's eye (the camera-space origin transformed to world
space).  The cap triangles are emitted as triangulated on those far-side
vertices, and exactly one triangle per silhouette (count 1) edge connects
the edge's two lifted vertices to the apex (index `n`); interior edges get
none, and no other faces exist. -/
theorem persp_extrusion_structure (fromCam : Mat4) (farDist : ℚ)
    (vs : List Pt2) (tris : List Tri)
    (hidx : ∀ t ∈ tris, t.1 < vs.length ∧ t.2.1 < vs.length ∧
      t.2.2 < vs.length) :
    (stencil_shape_mesh_data fromCam false farDist vs tris).vertices =
      vs.map (fun p =>
        ((fromCam.apply ⟨p.1 * farDist, p.2 * farDist, -farDist, 1⟩).x,
         (fromCam.apply ⟨p.1 * farDist, p.2 * farDist, -farDist, 1⟩).y,
         (fromCam.apply ⟨p.1 * farDist, p.2 * farDist, -farDist, 1⟩).z)) ++
      [((fromCam.apply ⟨0, 0, 0, 1⟩).x, (fromCam.apply ⟨0, 0, 0, 1⟩).y,
        (fromCam.apply ⟨0, 0, 0, 1⟩).z)] ∧
    (∀ t ∈ tris,
      capFace t ∈ (stencil_shape_mesh_data fromCam false farDist vs tris).faces) ∧
    (∀ e, edgeCount tris e = 1 →
      (stencil_shape_mesh_data fromCam false farDist vs tris).faces.count
        (apexTri vs.length e) = 1) ∧
    (∀ e, 2 ≤ edgeCount tris e →
      apexTri vs.length e ∉
        (stencil_shape_mesh_data fromCam false farDist vs tris).faces) ∧
    (∀ f ∈ (stencil_shape_mesh_data fromCam false farDist vs tris).faces,
      (∃ t ∈ tris, f = capFace t) ∨
      (∃ e, edgeCount tris e = 1 ∧ f = apexTri vs.length e)) := by
  refine ⟨rfl, ?_, ?_, ?_, ?_⟩
  · intro t ht
    exact capFace_mem false vs.length tris t ht
  · intro e he
    exact count_apexTri_eq_one vs.length tris e hidx he
  · intro e he
    exact apexTri_not_mem vs.length tris e hidx he
  · intro f hf
    rcases (mem_stencil_mesh_faces false vs.length tris f).mp hf with
      ⟨t, ht, heq⟩ | ⟨hfalse, _⟩ | ⟨e, _, hc, heq⟩
    · exact Or.inl ⟨t, ht, heq⟩
    · cases hfalse
    · exact Or.inr ⟨e, hc, by simpa using heq⟩

/-- Witness for `persp_extrusion_structure`: a single triangle; its cap face
appears and the boundary edge `(0, 1)` gets exactly one apex triangle. -/
theorem persp_extrusion_structure_witness :
    capFace (0, 1, 2) ∈
      (stencil_shape_mesh_data Mat4.one false 2
        [(1, 0), (0, 1), (0, 0)] [(0, 1, 2)]).faces ∧
    (stencil_shape_mesh_data Mat4.one false 2
        [(1, 0), (0, 1), (0, 0)] [(0, 1, 2)]).faces.count
      (apexTri 3 (0, 1)) = 1 := by
  have h := persp_extrusion_structure Mat4.one 2 [(1, 0), (0, 1), (0, 0)]
    [(0, 1, 2)] (by decide)
  exact ⟨h.2.1 (0, 1, 2) (by simp), h.2.2.1 (0, 1) (by decide)⟩

/-- **C2 counterexample**: under the identity view matrix with
`far_dist = 2`, the 2D vertex `(1, 0)` is lifted to `(2, 0, -2)` — the far
cross-section, scaled by `far_dist` — not to the depth-0 point `(1, 0, 0)`
the claim requires; indeed no lifted copy of any 2D vertex sits at depth 0:
the only vertex with camera-space depth 0 is the apex at the origin. -/
theorem persp_depth_zero_counterexample :
    (stencil_shape_mesh_data Mat4.one false 2
        [(1, 0), (0, 1), (0, 0)] [(0, 1, 2)]).vertices =
      [(2, 0, -2), (0, 2, -2), (0, 0, -2), (0, 0, 0)] ∧
    ((1 : ℚ), (0 : ℚ), (0 : ℚ)) ∉
      (stencil_shape_mesh_data Mat4.one false 2
        [(1, 0), (0, 1), (0, 0)] [(0, 1, 2)]).vertices ∧
    (∀ v ∈ (stencil_shape_mesh_data Mat4.one false 2
        [(1, 0), (0, 1), (0, 0)] [(0, 1, 2)]).vertices,
      v.2.2 = 0 → v = (0, 0, 0)) := by
  have hv : (stencil_shape_mesh_data Mat4.one false 2
      [(1, 0), (0, 1), (0, 0)] [(0, 1, 2)]).vertices =
      [(2, 0, -2), (0, 2, -2), (0, 0, -2), (0, 0, 0)] := by
    norm_num [stencil_shape_mesh_data, stencil_mesh_vertices,
      vp_plane_project_pt_inv, Mat4.apply, Mat4.one, dot4]
  refine ⟨hv, ?_, ?_⟩
  · rw [hv]
    norm_num
  · rw [hv]
    intro v hv2 hz
    simp only [List.mem_cons, List.not_mem_nil, or_false] at hv2
    rcases hv2 with h | h | h | h
    · subst h
      norm_num at hz
    · subst h
      norm_num at hz
    · subst h
      norm_num at hz
    · subst h
      rfl

/-- **C3**: the extruder classifies each unordered vertex-index pair that is
a triangle edge by the number of triangles referencing it (for genuine
triangles — three pairwise-distinct indices — the `Counter` occurrence count
equals that number): a pair referenced by exactly one triangle receives
exactly one bridge face (a quad in orthographic mode, an apex triangle in
perspective mode, the latter under valid vertex indexing), and a pair
referenced by two or more triangles receives no bridge face. -/
theorem silhouette_edge_classification :
    (∀ (tris : List Tri) (e : ℕ × ℕ),
      (∀ t ∈ tris, t.1 ≠ t.2.1 ∧ t.2.1 ≠ t.2.2 ∧ t.2.2 ≠ t.1) →
      edgeCount tris e = numTrianglesReferencing tris e) ∧
    (∀ (n : ℕ) (tris : List Tri) (e : ℕ × ℕ),
      (∀ t ∈ tris, t.1 ≠ t.2.1 ∧ t.2.1 ≠ t.2.2 ∧ t.2.2 ≠ t.1) →
      numTrianglesReferencing tris e = 1 →
      (stencil_mesh_faces true n tris).count (bridgeQuad n e) = 1) ∧
    (∀ (n : ℕ) (tris : List Tri) (e : ℕ × ℕ),
      (∀ t ∈ tris, t.1 ≠ t.2.1 ∧ t.2.1 ≠ t.2.2 ∧ t.2.2 ≠ t.1) →
      (∀ t ∈ tris, t.1 < n ∧ t.2.1 < n ∧ t.2.2 < n) →
      numTrianglesReferencing tris e = 1 →
      (stencil_mesh_faces false n tris).count (apexTri n e) = 1) ∧
    (∀ (n : ℕ) (tris : List Tri) (e : ℕ × ℕ),
      (∀ t ∈ tris, t.1 ≠ t.2.1 ∧ t.2.1 ≠ t.2.2 ∧ t.2.2 ≠ t.1) →
      2 ≤ numTrianglesReferencing tris e →
      bridgeQuad n e ∉ stencil_mesh_faces true n tris ∧
      ((∀ t ∈ tris, t.1 < n ∧ t.2.1 < n ∧ t.2.2 < n) →
        apexTri n e ∉ stencil_mesh_faces false n tris)) := by
  refine ⟨?_, ?_, ?_, ?_⟩
  · intro tris e hnd
    exact edgeCount_eq_numTrianglesReferencing tris e hnd
  · intro n tris e hnd h1
    exact count_bridgeQuad_eq_one n tris e
      ((edgeCount_eq_numTrianglesReferencing tris e hnd).symm ▸ h1)
  · intro n tris e hnd hidx h1
    exact count_apexTri_eq_one n tris e hidx
      ((edgeCount_eq_numTrianglesReferencing tris e hnd).symm ▸ h1)
  · intro n tris e hnd h2
    have hc : 2 ≤ edgeCount tris e := by
      rw [edgeCount_eq_numTrianglesReferencing tris e hnd]
      exact h2
    exact ⟨bridgeQuad_not_mem n tris e hc,
      fun hidx => apexTri_not_mem n tris e hidx hc⟩

/-- Witness for `silhouette_edge_classification`: two triangles sharing the
edge `(1, 2)`; the shared edge gets no bridge face in either mode, while the
boundary edge `(0, 1)` gets exactly one. -/
theorem silhouette_edge_classification_witness :
    edgeCount [(0, 1, 2), (1, 3, 2)] (1, 2) =
      numTrianglesReferencing [(0, 1, 2), (1, 3, 2)] (1, 2) ∧
    (stencil_mesh_faces true 4 [(0, 1, 2), (1, 3, 2)]).count
      (bridgeQuad 4 (0, 1)) = 1 ∧
    (stencil_mesh_faces false 4 [(0, 1, 2), (1, 3, 2)]).count
      (apexTri 4 (0, 1)) = 1 ∧
    bridgeQuad 4 (1, 2) ∉ stencil_mesh_faces true 4 [(0, 1, 2), (1, 3, 2)] ∧
    apexTri 4 (1, 2) ∉ stencil_mesh_faces false 4 [(0, 1, 2), (1, 3, 2)] := by
  have h := silhouette_edge_classification
  have hnotmem := h.2.2.2 4 [(0, 1, 2), (1, 3, 2)] (1, 2) (by decide)
    (by decide)
  exact ⟨h.1 [(0, 1, 2), (1, 3, 2)] (1, 2) (by decide),
    h.2.1 4 [(0, 1, 2), (1, 3, 2)] (0, 1) (by decide) (by decide),
    h.2.2.1 4 [(0, 1, 2), (1, 3, 2)] (0, 1) (by decide) (by decide) (by decide),
    hnotmem.1, hnotmem.2 (by decide)⟩

/-! ## Path closing and the triangulator's vertex and segment extraction (C5)

`path_to_shape` (lines 236-246) hands each projected path to the Shapely
`LinearRing` constructor, which closes an open coordinate sequence by
appending its first point; the explicit re-closing of a simple open
`LineString` at lines 242-243 appends the same point, guarded by the exact
comparison `path[0] != path[-1]`.  The grease-pencil adapter closes cyclic
strokes the same way (lines 214-217).  No branch anywhere compares the
endpoints against a distance tolerance, and no branch removes a point. -/

/-- The coordinate ring obtained for a path at lines 237-243: kept as is
when already exactly closed, otherwise closed by appending the first
point. -/
def ring_coords (path : List Pt2) : List Pt2 :=
  match path with
  | [] => []
  | p :: _ => if path.getLast? = some p then path else path ++ [p]

/-- The closing of one cyclic grease-pencil stroke (lines 214-217): append
the first point when the endpoints are not exactly equal. -/
def gpencil_stroke_path (drawCyclic : Bool) (path : List Pt3) : List Pt3 :=
  if drawCyclic ∧ 1 < path.length ∧ path.head? ≠ path.getLast? then
    path ++ path.head?.toList
  else
    path

/-- `list.index` on a list known to contain the element (used as
`vertices.index(...)` at line 360; lookups there always succeed because
every segment endpoint was first added to the vertex set). -/
def listIndex {α : Type} [DecidableEq α] : List α → α → ℕ
  | [], _ => 0
  | x :: xs, a => if x = a then 0 else listIndex xs a + 1

/-- Consecutive coordinate pairs, modelling the loop
`for idx in range(len(coords_list) - 1)` at lines 358-360. -/
def consecPairs {α : Type} : List α → List (α × α)
  | a :: b :: rest => (a, b) :: consecPairs (b :: rest)
  | _ => []

/-- The deduplicated triangulation vertex list of
`_triangulate_stencil_shape` (lines 354-371): an `OrderedSet` over the ring
coordinates. -/
def triang_vertices (ring : List Pt2) : List Pt2 :=
  orderedSet ring

/-- The triangulation segment set of `add_segments` (lines 358-360): the
deduplicated index pairs of consecutive ring coordinates. -/
def triang_segments (ring : List Pt2) : List (ℕ × ℕ) :=
  orderedSet ((consecPairs ring).map
    (fun pq => (listIndex (triang_vertices ring) pq.1,
                listIndex (triang_vertices ring) pq.2)))

/-- **C5** (amended): extraction applies no distance tolerance and never
drops a point: an open path whose endpoints differ — by `1e-10` or any other
amount — is closed by appending its first point, which yields exactly the
coordinate ring of the same path given explicitly closed, hence the same
triangulation vertex and segment sets; every original point, including the
near-duplicate endpoint, survives into the ring.  The cyclic grease-pencil
adapter closes by the same exact-equality rule. -/
theorem open_path_exact_closure (p : Pt2) (rest : List Pt2)
    (hne : (p :: rest).getLast? ≠ some p) :
    ring_coords (p :: rest) = (p :: rest) ++ [p] ∧
    ring_coords ((p :: rest) ++ [p]) = (p :: rest) ++ [p] ∧
    triang_vertices (ring_coords (p :: rest)) =
      triang_vertices (ring_coords ((p :: rest) ++ [p])) ∧
    triang_segments (ring_coords (p :: rest)) =
      triang_segments (ring_coords ((p :: rest) ++ [p])) ∧
    (∀ q ∈ p :: rest, q ∈ ring_coords (p :: rest)) ∧
    (∀ (p3 : Pt3) (rest3 : List Pt3), rest3 ≠ [] →
      (p3 :: rest3).getLast? ≠ some p3 →
      gpencil_stroke_path true (p3 :: rest3) = (p3 :: rest3) ++ [p3]) := by
  have h1 : ring_coords (p :: rest) = (p :: rest) ++ [p] := by
    show (if (p :: rest).getLast? = some p then p :: rest
      else (p :: rest) ++ [p]) = (p :: rest) ++ [p]
    rw [if_neg hne]
  have h2 : ring_coords ((p :: rest) ++ [p]) = (p :: rest) ++ [p] := by
    show (if ((p :: rest) ++ [p]).getLast? = some p then (p :: rest) ++ [p]
      else ((p :: rest) ++ [p]) ++ [p]) = (p :: rest) ++ [p]
    rw [if_pos]
    exact List.getLast?_concat _
  refine ⟨h1, h2, by rw [h1, h2], by rw [h1, h2], ?_, ?_⟩
  · intro q hq
    rw [h1]
    exact List.mem_append_left _ hq
  · intro p3 rest3 hr hne3
    unfold gpencil_stroke_path
    rw [if_pos]
    · rfl
    · refine ⟨rfl, ?_, ?_⟩
      · simp [List.length_pos.mpr hr]
      · exact fun h => hne3 h.symm

/-- The open test path: a unit-square-like outline whose endpoints are
`1e-10` apart. -/
def pathOpenEps : List Pt2 :=
  [((0 : ℚ), (0 : ℚ)), ((1 : ℚ), (0 : ℚ)), ((1 : ℚ), (1 : ℚ)),
   ((0 : ℚ), 1 / 10000000000)]

/-- The same outline given explicitly closed, with the near-duplicate last
point dropped (the processing the claim describes). -/
def pathClosedExact : List Pt2 :=
  [((0 : ℚ), (0 : ℚ)), ((1 : ℚ), (0 : ℚ)), ((1 : ℚ), (1 : ℚ)),
   ((0 : ℚ), (0 : ℚ))]

/-- Witness for `open_path_exact_closure`: the open path with endpoints
`1e-10` apart is closed by appending its first point, with nothing
dropped. -/
theorem open_path_exact_closure_witness :
    ring_coords pathOpenEps = pathOpenEps ++ [((0 : ℚ), (0 : ℚ))] := by
  have h := (open_path_exact_closure ((0 : ℚ), (0 : ℚ))
    [((1 : ℚ), (0 : ℚ)), ((1 : ℚ), (1 : ℚ)), ((0 : ℚ), 1 / 10000000000)]
    (by norm_num [List.getLast?])).1
  simpa [pathOpenEps] using h

/-- **C5 counterexample**: for the open path with endpoints `1e-10` apart
(squared distance `1e-20`, below the claimed `1e-9` tolerance), the
near-duplicate last point is *not* dropped: it survives as a distinct
triangulation vertex, giving 4 vertices and 4 segments, whereas the
drop-and-close processing the claim describes (the explicitly closed
3-point ring) gives 3 of each. -/
theorem tolerance_close_counterexample :
    ((0 : ℚ) - 0) ^ 2 + ((1 : ℚ) / 10000000000 - 0) ^ 2 < 1 / 1000000000 ∧
    ring_coords pathOpenEps = pathOpenEps ++ [((0 : ℚ), (0 : ℚ))] ∧
    ((0 : ℚ), (1 : ℚ) / 10000000000) ∈
      triang_vertices (ring_coords pathOpenEps) ∧
    (triang_vertices (ring_coords pathOpenEps)).length = 4 ∧
    (triang_segments (ring_coords pathOpenEps)).length = 4 ∧
    (triang_vertices (ring_coords pathClosedExact)).length = 3 ∧
    (triang_segments (ring_coords pathClosedExact)).length = 3 := by
  have hr : ring_coords pathOpenEps = pathOpenEps ++ [((0 : ℚ), (0 : ℚ))] := by
    norm_num [ring_coords, pathOpenEps, List.getLast?]
  have hrc : ring_coords pathClosedExact = pathClosedExact := by
    norm_num [ring_coords, pathClosedExact, List.getLast?]
  have hv : triang_vertices (pathOpenEps ++ [((0 : ℚ), (0 : ℚ))]) =
      pathOpenEps := by
    norm_num [triang_vertices, orderedSet, orderedInsert, pathOpenEps,
      Prod.ext_iff]
  have hvc : triang_vertices pathClosedExact =
      [((0 : ℚ), (0 : ℚ)), ((1 : ℚ), (0 : ℚ)), ((1 : ℚ), (1 : ℚ))] := by
    norm_num [triang_vertices, orderedSet, orderedInsert, pathClosedExact,
      Prod.ext_iff]
  refine ⟨by norm_num, hr, ?_, ?_, ?_, ?_, ?_⟩
  · rw [hr, hv]
    norm_num [pathOpenEps]
  · rw [hr, hv, pathOpenEps]
    rfl
  · rw [hr]
    norm_num [triang_segments, triang_vertices, consecPairs, listIndex,
      orderedSet, orderedInsert, pathOpenEps, Prod.ext_iff]
  · rw [hrc, hvc]
    rfl
  · rw [hrc]
    norm_num [triang_segments, triang_vertices, consecPairs, listIndex,
      orderedSet, orderedInsert, pathClosedExact, Prod.ext_iff]

/-! ## Faceless-mesh chain extraction
(`_faceless_carver_mesh_to_stencil_shape`, lines 157-198) -/

/-- A faceless carver mesh: vertex indices `0, ..., numVerts - 1` and an
undirected edge table, mirroring the bmesh vertex and edge tables. -/
structure EdgeGraph where
  numVerts : ℕ
  edges : List (ℕ × ℕ)
deriving DecidableEq, Repr

/-- `BMEdge.other_vert`. -/
def otherVert (e : ℕ × ℕ) (v : ℕ) : ℕ :=
  if e.1 = v then e.2 else e.1

/-- `BMVert.link_edges`, in edge-table order. -/
def linkEdges (g : EdgeGraph) (v : ℕ) : List (ℕ × ℕ) :=
  g.edges.filter (fun e => e.1 = v ∨ e.2 = v)

/-- Vertex degree (`len(link_edges)`). -/
def degree (g : EdgeGraph) (v : ℕ) : ℕ :=
  (linkEdges g v).length

/-- The edge-following loop of lines 177-186: step to the other end of the
current edge; stop after appending a vertex that is the start or has degree
other than 2, else continue along the link edge that does not lead back.
The fuel argument only bounds the recursion; every walk the outer loop
starts terminates well before the fuel bound used in `walkFrom` because it
stops upon re-reaching its start or leaving the degree-2 chain. -/
def walkLoop (g : EdgeGraph) (start : ℕ) :
    ℕ → (ℕ × ℕ) → ℕ → List ℕ
  | 0, _, _ => []
  | fuel + 1, currEdge, curr =>
    let next := otherVert currEdge curr
    if next = start ∨ degree g next ≠ 2 then
      [next]
    else
      let nextEdges := linkEdges g next
      let e0 := nextEdges.headD (next, next)
      let e1 := nextEdges.getD 1 (next, next)
      next :: walkLoop g start fuel
        (if otherVert e0 next ≠ curr then e0 else e1) next

/-- One chain walk (lines 173-186): the path starts at the start vertex and
follows `start_edges[0]` first. -/
def walkFrom (g : EdgeGraph) (start : ℕ) : List ℕ :=
  start :: walkLoop g start (g.numVerts + g.edges.length + 2)
    ((linkEdges g start).headD (start, start)) start

/-- The outer loop of lines 167-188: visit vertices in index order; start a
chain at every not-yet-visited vertex of degree 1 or 2 (vertices of any
other degree are never used as starts); all vertices of a produced chain
are marked visited. -/
def faceless_vert_paths (g : EdgeGraph) : List (List ℕ) :=
  ((List.range g.numVerts).foldl
    (fun acc v =>
      if (degree g v = 1 ∨ degree g v = 2) ∧ v ∉ acc.2 then
        (acc.1 ++ [walkFrom g v], acc.2 ++ walkFrom g v)
      else acc)
    ([], [])).1

theorem faceless_vert_paths_aux (g : EdgeGraph) (p : List ℕ)
    (l : List ℕ) (acc : List (List ℕ) × List ℕ)
    (hmem : p ∈ (l.foldl
      (fun acc v =>
        if (degree g v = 1 ∨ degree g v = 2) ∧ v ∉ acc.2 then
          (acc.1 ++ [walkFrom g v], acc.2 ++ walkFrom g v)
        else acc) acc).1) :
    p ∈ acc.1 ∨ ∃ v, (degree g v = 1 ∨ degree g v = 2) ∧ p = walkFrom g v := by
  induction l generalizing acc with
  | nil => exact Or.inl hmem
  | cons v l ih =>
    rw [List.foldl_cons] at hmem
    by_cases hc : (degree g v = 1 ∨ degree g v = 2) ∧ v ∉ acc.2
    · rw [if_pos hc] at hmem
      rcases ih _ hmem with hin | hnew
      · rcases List.mem_append.mp hin with hin2 | hin2
        · exact Or.inl hin2
        · exact Or.inr ⟨v, hc.1, by simpa using hin2⟩
      · exact Or.inr hnew
    · rw [if_neg hc] at hmem
      exact ih _ hmem

/-- **C6** (amended): the degree check of the faceless-mesh walk never
produces an error or fallback signal.  A vertex of degree outside `{1, 2}`
is simply never used as a chain start: every chain the extraction returns
begins at a vertex of degree 1 or 2, and a faceless mesh containing a
degree-3 vertex is still processed — its remaining chains (found from
degree-1/2 starts) are returned and can go on to produce stencil
geometry. -/
theorem faceless_walk_starts (g : EdgeGraph) (p : List ℕ)
    (hmem : p ∈ faceless_vert_paths g) :
    ∃ v, p.head? = some v ∧ (degree g v = 1 ∨ degree g v = 2) := by
  rcases faceless_vert_paths_aux g p (List.range g.numVerts) ([], []) hmem with
    hin | ⟨v, hdeg, hp⟩
  · cases hin
  · exact ⟨v, by rw [hp]; rfl, hdeg⟩

/-- The counterexample graph: a 4-cycle `0-1-2-3` plus a `Y` whose junction
vertex `8` has degree 3, with three 2-edge arms `4-5-8`, `6-7-8`,
`9-10-8`. -/
def graphWithDeg3 : EdgeGraph :=
  ⟨11, [(0, 1), (1, 2), (2, 3), (3, 0), (4, 5), (5, 8), (6, 7), (7, 8),
        (9, 10), (10, 8)]⟩

/-- Witness for `faceless_walk_starts`: the chain `[4, 5, 8]` produced for
the counterexample graph starts at the degree-1 vertex 4. -/
theorem faceless_walk_starts_witness :
    ∃ v, ([4, 5, 8] : List ℕ).head? = some v ∧
      (degree graphWithDeg3 v = 1 ∨ degree graphWithDeg3 v = 2) :=
  faceless_walk_starts graphWithDeg3 [4, 5, 8] (by decide)

/-- **C6 counterexample**: the graph has a vertex of degree 3 (vertex 8),
yet extraction does not fail or fall back for the mesh: it returns four
chains — including the closed 4-cycle `[0, 1, 2, 3, 0]`, which goes on to
polygonize into stencil geometry — so the mesh is treated as path-shaped
and the carver is not skipped. -/
theorem faceless_degree3_counterexample :
    degree graphWithDeg3 8 = 3 ∧
    faceless_vert_paths graphWithDeg3 =
      [[0, 1, 2, 3, 0], [4, 5, 8], [6, 7, 8], [9, 10, 8]] ∧
    (∃ p ∈ faceless_vert_paths graphWithDeg3,
      p.head? = p.getLast? ∧ 3 ≤ p.length) := by
  decide

/-! ## Host-object lifecycle: stencil-mesh creation, union mode, Object
Mode checks (C7, C9, C10) -/

instance {ε α : Type} [DecidableEq ε] [DecidableEq α] :
    DecidableEq (Except ε α) := fun a b =>
  match a, b with
  | .error e1, .error e2 =>
    if h : e1 = e2 then isTrue (by rw [h])
    else isFalse (fun hc => h (by injection hc))
  | .error _, .ok _ => isFalse (fun hc => by injection hc)
  | .ok _, .error _ => isFalse (fun hc => by injection hc)
  | .ok a1, .ok a2 =>
    if h : a1 = a2 then isTrue (by rw [h])
    else isFalse (fun hc => h (by injection hc))

/-- Blender-side state visible to the pipeline: the set of scene objects
currently linked, with a fresh-id counter.  `bpy.data.objects.new` followed
by `collection.objects.link` is `create`; `bpy.data.objects.remove` is
`remove`. -/
structure Host where
  nextId : ℕ
  live : Finset ℕ
deriving DecidableEq

/-- Allocate and link a fresh scene object. -/
def Host.create (h : Host) : ℕ × Host :=
  (h.nextId, ⟨h.nextId + 1, insert h.nextId h.live⟩)

/-- Remove a scene object. -/
def Host.remove (h : Host) (i : ℕ) : Host :=
  ⟨h.nextId, h.live.erase i⟩

/-- Host invariant: every live id was previously allocated. -/
def Host.WF (h : Host) : Prop :=
  ∀ i ∈ h.live, i < h.nextId

theorem Host.WF.not_mem {h : Host} (hWF : Host.WF h) :
    h.nextId ∉ h.live :=
  fun hm => absurd (hWF _ hm) (lt_irrefl _)

/-- The ways one 2D shape's conversion to a stencil mesh object can go
(`_stencil_shape_to_stencil_mesh`): the shape may be `None` or not
triangulable (no object, no error), `mesh.validate()` may report an invalid
mesh (`ValueError` raised before the scene object exists), a host operator
of the normals pass may raise (after the object was created), or everything
succeeds.  The flags select the failure point; the geometry itself is
verified separately through `stencil_shape_mesh_data`. -/
structure ShapeModel where
  isNone : Bool
  validateFails : Bool
  opsFail : Bool
deriving DecidableEq, Repr

/-- `_stencil_shape_to_stencil_mesh` (lines 252-339) at the host-object
level.  On the validate failure the `except` block (lines 333-339) removes
the mesh data — no scene object exists yet — and re-raises; on a
normals-pass failure it removes the created scene object and re-raises; on
success the created object stays linked. -/
def stencil_shape_to_stencil_mesh (s : ShapeModel) (h : Host) :
    Host × Except String (Option ℕ) :=
  if s.isNone then (h, .ok none)
  else if s.validateFails then
    (h, .error "Somehow created invalid mesh; cannot continue")
  else
    let c := h.create
    if s.opsFail then (c.2.remove c.1, .error "Blender operator failed")
    else (c.2, .ok (some c.1))

/-- The stencil-mesh creation loop of `carvers_to_stencil_meshes` (lines
51-65): accumulate created objects; on the first error remove every object
accumulated so far (lines 60-65) and surface the error. -/
def stencil_mesh_loop : List ShapeModel → Host → List ℕ →
    Host × Except String (List ℕ)
  | [], h, acc => (h, .ok acc)
  | s :: ss, h, acc =>
    match stencil_shape_to_stencil_mesh s h with
    | (h2, .ok none) => stencil_mesh_loop ss h2 acc
    | (h2, .ok (some o)) => stencil_mesh_loop ss h2 (acc ++ [o])
    | (h2, .error e) => (acc.foldl Host.remove h2, .error e)

theorem stencil_mesh_loop_cons (s : ShapeModel) (ss : List ShapeModel)
    (h : Host) (acc : List ℕ) :
    stencil_mesh_loop (s :: ss) h acc =
      match stencil_shape_to_stencil_mesh s h with
      | (h2, .ok none) => stencil_mesh_loop ss h2 acc
      | (h2, .ok (some o)) => stencil_mesh_loop ss h2 (acc ++ [o])
      | (h2, .error e) => (acc.foldl Host.remove h2, .error e) := rfl

/-- Case analysis of one conversion step over a well-formed host. -/
theorem stencil_shape_step_cases (s : ShapeModel) (h : Host)
    (hWF : Host.WF h) :
    stencil_shape_to_stencil_mesh s h = (h, .ok none) ∨
    (∃ e, stencil_shape_to_stencil_mesh s h = (h, .error e)) ∨
    (∃ e, stencil_shape_to_stencil_mesh s h =
      (⟨h.nextId + 1, h.live⟩, .error e)) ∨
    stencil_shape_to_stencil_mesh s h =
      (⟨h.nextId + 1, insert h.nextId h.live⟩, .ok (some h.nextId)) := by
  obtain ⟨isN, vF, oF⟩ := s
  cases isN with
  | true => exact Or.inl rfl
  | false =>
    cases vF with
    | true =>
      exact Or.inr (Or.inl
        ⟨"Somehow created invalid mesh; cannot continue", rfl⟩)
    | false =>
      cases oF with
      | true =>
        refine Or.inr (Or.inr (Or.inl ⟨"Blender operator failed", ?_⟩))
        show (Host.remove ⟨h.nextId + 1, insert h.nextId h.live⟩ h.nextId,
          Except.error "Blender operator failed") = _
        rw [Host.remove, Finset.erase_insert hWF.not_mem]
      | false => exact Or.inr (Or.inr (Or.inr rfl))

theorem foldl_remove_live (acc : List ℕ) (h : Host) :
    (acc.foldl Host.remove h).live = acc.foldl Finset.erase h.live ∧
    (acc.foldl Host.remove h).nextId = h.nextId := by
  induction acc generalizing h with
  | nil => exact ⟨rfl, rfl⟩
  | cons a acc ih =>
    rw [List.foldl_cons, List.foldl_cons]
    exact ih (h.remove a)

theorem foldl_erase_subset (acc : List ℕ) (s : Finset ℕ) :
    acc.foldl Finset.erase s ⊆ s := by
  induction acc generalizing s with
  | nil => exact fun x hx => hx
  | cons a acc ih =>
    rw [List.foldl_cons]
    exact (ih (s.erase a)).trans (Finset.erase_subset a s)

theorem foldl_erase_insert (acc : List ℕ) (s : Finset ℕ) (o : ℕ)
    (ho : o ∉ s) (hacc : o ∉ acc) :
    acc.foldl Finset.erase (insert o s) =
      insert o (acc.foldl Finset.erase s) := by
  induction acc generalizing s with
  | nil => rfl
  | cons a acc ih =>
    rw [List.foldl_cons, List.foldl_cons]
    have hne : o ≠ a := fun hc => hacc (hc ▸ List.mem_cons_self a acc)
    rw [Finset.erase_insert_of_ne hne]
    exact ih (s.erase a) (fun hc => ho (Finset.mem_of_mem_erase hc))
      (fun hc => hacc (List.mem_cons_of_mem a hc))

theorem stencil_mesh_loop_error_aux (ss : List ShapeModel) :
    ∀ (h : Host) (acc : List ℕ), Host.WF h → (∀ a ∈ acc, a < h.nextId) →
    ∀ (hf : Host) (e : String),
    stencil_mesh_loop ss h acc = (hf, .error e) →
    hf.live = acc.foldl Finset.erase h.live := by
  induction ss with
  | nil =>
    intro h acc _ _ hf e heq
    exact absurd (congrArg Prod.snd heq) (by simp [stencil_mesh_loop])
  | cons s ss ih =>
    intro h acc hWF hacc hf e heq
    rw [stencil_mesh_loop_cons] at heq
    rcases stencil_shape_step_cases s h hWF with hc | ⟨e0, hc⟩ | ⟨e0, hc⟩ | hc
    · rw [hc] at heq
      exact ih h acc hWF hacc hf e heq
    · rw [hc] at heq
      have h1 : acc.foldl Host.remove h = hf :=
        congrArg Prod.fst heq
      rw [← h1, (foldl_remove_live acc h).1]
    · rw [hc] at heq
      have h1 : acc.foldl Host.remove ⟨h.nextId + 1, h.live⟩ = hf :=
        congrArg Prod.fst heq
      rw [← h1, (foldl_remove_live acc ⟨h.nextId + 1, h.live⟩).1]
    · rw [hc] at heq
      have hWF2 : Host.WF ⟨h.nextId + 1, insert h.nextId h.live⟩ := by
        intro i hi
        show i < h.nextId + 1
        rcases Finset.mem_insert.mp hi with rfl | hi2
        · omega
        · have := hWF i hi2
          omega
      have hacc2 : ∀ a ∈ acc ++ [h.nextId], a < h.nextId + 1 := by
        intro a ha
        rcases List.mem_append.mp ha with ha2 | ha2
        · have := hacc a ha2
          omega
        · simp only [List.mem_singleton] at ha2
          omega
      have hnm : h.nextId ∉ acc := fun hc2 => absurd (hacc _ hc2) (lt_irrefl _)
      have hres := ih _ _ hWF2 hacc2 hf e heq
      rw [List.foldl_append] at hres
      simp only [List.foldl_cons, List.foldl_nil] at hres
      rw [foldl_erase_insert acc h.live h.nextId hWF.not_mem hnm,
        Finset.erase_insert
          (fun hc2 => hWF.not_mem (foldl_erase_subset acc h.live hc2))] at hres
      exact hres

/-- **C9**: on any aborting error during stencil-mesh creation, every scene
object created so far in the batch has been removed by the time the error
is surfaced to the caller: the per-shape conversion removes its own partial
objects before re-raising (lines 333-339), and the batch loop removes all
accumulated stencil objects before re-raising (lines 60-65), so the set of
live scene objects equals the one from before the batch. -/
theorem cleanup_on_error :
    (∀ (s : ShapeModel) (h : Host), Host.WF h → ∀ (hf : Host) (e : String),
      stencil_shape_to_stencil_mesh s h = (hf, .error e) →
      hf.live = h.live) ∧
    (∀ (shapes : List ShapeModel) (h : Host), Host.WF h →
      ∀ (hf : Host) (e : String),
      stencil_mesh_loop shapes h [] = (hf, .error e) → hf.live = h.live) := by
  constructor
  · intro s h hWF hf e heq
    rcases stencil_shape_step_cases s h hWF with hc | ⟨e0, hc⟩ | ⟨e0, hc⟩ | hc
    · rw [hc] at heq
      exact absurd (congrArg Prod.snd heq) (by simp)
    · rw [hc] at heq
      have h1 : h = hf := congrArg Prod.fst heq
      rw [← h1]
    · rw [hc] at heq
      have h1 : (⟨h.nextId + 1, h.live⟩ : Host) = hf :=
        congrArg Prod.fst heq
      rw [← h1]
    · rw [hc] at heq
      exact absurd (congrArg Prod.snd heq) (by simp)
  · intro shapes h hWF hf e heq
    have := stencil_mesh_loop_error_aux shapes h [] hWF (by simp) hf e heq
    simpa using this

/-- Witness for `cleanup_on_error`: a two-shape batch over a host owning
object 5; the first shape succeeds (creating object 6), the second fails
validation; the surfaced state again owns exactly object 5. -/
theorem cleanup_on_error_witness :
    stencil_mesh_loop [⟨false, false, false⟩, ⟨false, true, false⟩]
        ⟨6, {5}⟩ [] =
      (⟨7, {5}⟩, .error "Somehow created invalid mesh; cannot continue") ∧
    (⟨7, ({5} : Finset ℕ)⟩ : Host).live = (⟨6, {5}⟩ : Host).live := by
  have heq : stencil_mesh_loop [⟨false, false, false⟩, ⟨false, true, false⟩]
      ⟨6, {5}⟩ [] =
      (⟨7, {5}⟩, .error "Somehow created invalid mesh; cannot continue") := by
    decide
  refine ⟨heq, ?_⟩
  exact cleanup_on_error.2 [⟨false, false, false⟩, ⟨false, true, false⟩]
    ⟨6, {5}⟩ (by show ∀ i ∈ ({5} : Finset ℕ), i < 6; decide) ⟨7, {5}⟩
    "Somehow created invalid mesh; cannot continue" heq

/-- The stencil-shape combination step of `carvers_to_stencil_meshes`
(lines 40-47), generic in the shape type: extraction failures (`None`) are
dropped; in `union_stencils` mode with at least one surviving shape the
list is replaced by the single `shapely.ops.unary_union` of all shapes. -/
def combine_stencil_shapes {α : Type} (unaryUnion : List α → α)
    (unionStencils : Bool) (shapes : List (Option α)) : List α :=
  if unionStencils ∧ 0 < (shapes.filterMap id).length then
    [unaryUnion (shapes.filterMap id)]
  else
    shapes.filterMap id

/-- **C7**: with the union flag set and at least one non-null extracted
shape, all surviving shapes are unary-unioned into a single shape, so the
downstream loop can create at most one stencil mesh object; with the flag
unset the surviving shapes pass through unchanged, one per surviving
carver.  The last clause bounds the loop's output by its input length, so a
singleton shape list yields at most one object. -/
theorem union_stencils_spec :
    (∀ (α : Type) (u : List α → α) (shapes : List (Option α)),
      shapes.filterMap id ≠ [] →
      combine_stencil_shapes u true shapes = [u (shapes.filterMap id)] ∧
      (combine_stencil_shapes u true shapes).length = 1) ∧
    (∀ (α : Type) (u : List α → α) (shapes : List (Option α)),
      combine_stencil_shapes u false shapes = shapes.filterMap id) ∧
    (∀ (shapes : List ShapeModel) (h : Host) (acc : List ℕ) (hf : Host)
      (objs : List ℕ), stencil_mesh_loop shapes h acc = (hf, .ok objs) →
      objs.length ≤ acc.length + shapes.length) := by
  refine ⟨?_, ?_, ?_⟩
  · intro α u shapes hne
    have hpos : 0 < (shapes.filterMap id).length := List.length_pos.mpr hne
    constructor
    · rw [combine_stencil_shapes, if_pos ⟨rfl, hpos⟩]
    · rw [combine_stencil_shapes, if_pos ⟨rfl, hpos⟩]
      rfl
  · intro α u shapes
    rw [combine_stencil_shapes, if_neg]
    rintro ⟨hc, _⟩
    cases hc
  · intro shapes
    induction shapes with
    | nil =>
      intro h acc hf objs heq
      have h1 : acc = objs := by
        have := congrArg Prod.snd heq
        simpa [stencil_mesh_loop] using this
      simp [← h1]
    | cons s ss ih =>
      intro h acc hf objs heq
      rw [stencil_mesh_loop_cons] at heq
      rcases hstep : stencil_shape_to_stencil_mesh s h with ⟨h2, r⟩
      rw [hstep] at heq
      match r, heq with
      | .ok none, heq =>
        have := ih h2 acc hf objs heq
        simp only [List.length_cons]
        omega
      | .ok (some o), heq =>
        have := ih h2 (acc ++ [o]) hf objs heq
        simp only [List.length_append, List.length_singleton,
          List.length_cons, List.length_nil] at this ⊢
        omega
      | .error e, heq =>
        exact absurd (congrArg Prod.snd heq) (by simp)

/-- Witness for `union_stencils_spec`: three carvers, one of which extracts
no shape; union mode produces the single union, pass-through mode keeps
both surviving shapes; a one-shape loop run yields one object. -/
theorem union_stencils_spec_witness :
    combine_stencil_shapes (fun l => l.sum) true
      [some 1, none, some 2] = [(3 : ℕ)] ∧
    combine_stencil_shapes (fun l => l.sum) false
      [some 1, none, some 2] = [1, 2] ∧
    ([0] : List ℕ).length ≤
      ([] : List ℕ).length + [ShapeModel.mk false false false].length := by
  refine ⟨?_, ?_, ?_⟩
  · have h := (union_stencils_spec.1 ℕ (fun l => l.sum)
      [some 1, none, some 2] (by decide)).1
    simpa using h
  · have h := union_stencils_spec.2.1 ℕ (fun l => l.sum)
      [some 1, none, some 2]
    simpa using h
  · exact union_stencils_spec.2.2 [⟨false, false, false⟩] ⟨0, ∅⟩ []
      ⟨1, insert 0 ∅⟩ [0] (by decide)

/-- `_carver_to_stencil_shape` entry (lines 82-83): the per-carver Object
Mode check, raising before the carver's geometry is touched; the carver's
eventual extraction result is abstracted as `extraction`. -/
def carver_to_stencil_shape {α : Type} (mode : String)
    (extraction : Option α) : Except String (Option α) :=
  if mode ≠ "OBJECT" then .error "Not in Object Mode" else .ok extraction

/-- The extraction phase of `carvers_to_stencil_meshes` (lines 40-43): one
shape per carver, the first raised error propagating. -/
def extract_shapes (mode : String) :
    List (Option ShapeModel) → Except String (List (Option ShapeModel))
  | [] => .ok []
  | c :: cs =>
    match carver_to_stencil_shape mode c with
    | .error e => .error e
    | .ok s =>
      match extract_shapes mode cs with
      | .error e => .error e
      | .ok ss => .ok (s :: ss)

/-- `carvers_to_stencil_meshes` (lines 19-65) at the control-flow level:
check Object Mode first (lines 37-38), extract one shape per carver (each
extraction re-checking the mode), filter and optionally union (lines
40-47), then run the stencil-mesh creation loop (lines 50-65). -/
def carvers_to_stencil_meshes (mode : String)
    (unaryUnion : List ShapeModel → ShapeModel) (unionStencils : Bool)
    (carvers : List (Option ShapeModel)) (h : Host) :
    Host × Except String (List ℕ) :=
  if mode ≠ "OBJECT" then (h, .error "Not in Object Mode")
  else
    match extract_shapes mode carvers with
    | .error e => (h, .error e)
    | .ok shapes =>
        stencil_mesh_loop (combine_stencil_shapes unaryUnion unionStencils
          shapes) h []

/-- **C10**: called outside Object Mode, the pipeline entry point returns
the `Not in Object Mode` `ValueError` immediately, with the host state
untouched and independent of the carvers — before any projection or object
creation; and the same precondition is checked again per carver by
`_carver_to_stencil_shape`. -/
theorem object_mode_check :
    (∀ (mode : String) (u : List ShapeModel → ShapeModel) (b : Bool)
      (carvers : List (Option ShapeModel)) (h : Host), mode ≠ "OBJECT" →
      carvers_to_stencil_meshes mode u b carvers h =
        (h, .error "Not in Object Mode")) ∧
    (∀ (α : Type) (mode : String) (x : Option α), mode ≠ "OBJECT" →
      carver_to_stencil_shape mode x = .error "Not in Object Mode") := by
  constructor
  · intro mode u b carvers h hm
    rw [carvers_to_stencil_meshes, if_pos hm]
  · intro α mode x hm
    rw [carver_to_stencil_shape, if_pos hm]

/-- Witness for `object_mode_check` in Edit Mode: the call fails with the
Object Mode error and leaves the host unchanged. -/
theorem object_mode_check_witness :
    carvers_to_stencil_meshes "EDIT_MESH" (fun _ => ⟨false, false, false⟩)
        true [some ⟨false, false, false⟩] ⟨4, {3}⟩ =
      ((⟨4, {3}⟩ : Host), .error "Not in Object Mode") ∧
    carver_to_stencil_shape "EDIT_MESH" (some (3 : ℕ)) =
      .error "Not in Object Mode" :=
  ⟨object_mode_check.1 "EDIT_MESH" (fun _ => ⟨false, false, false⟩) true
      [some ⟨false, false, false⟩] ⟨4, {3}⟩ (by decide),
   object_mode_check.2 ℕ "EDIT_MESH" (some 3) (by decide)⟩

end ViewCarve
